import Mathlib

/-!
Verification of the meeting-minutes collection and processing pipeline.

This file gives a shallow embedding of the three Python modules of the
repository (`summarize_text.py`, `pdf_downloader.py`, `id_extractor.py`)
and proves or refutes the frozen claims about them.

Modelling conventions:
* Python strings are Lean `String`s; `str.split`, `str.join` and
  `str.strip` are modelled by executable Lean functions with Python's
  semantics (`splitSep`, `pyJoin`, `isBlank` below).
* The generative-AI client (`model.generate_content`) is an external
  collaborator; a run of the API is modelled by an oracle mapping the
  call index and the prompt to the outcome of that call (text-bearing
  response, candidate-less response, or raised exception).  The
  `temperature` / `max_output_tokens` parameters are forwarded verbatim
  to the external client and affect no control flow, so they are not
  modelled.  `textwrap.fill(s, width=80)` is likewise external and is
  modelled by an arbitrary function argument `fill` applied at width 80.
* The filesystem seen by the download-completion poller is modelled as a
  time-indexed view (`FS` below); time is counted in half-second ticks,
  the granularity of the smallest sleep in the source.  `os.path.join`
  is modelled as concatenation with `"/"` and `os.path.abspath` as the
  identity.
* The browser session of the identifier extractor is an external
  collaborator; the per-category outcome of driving it (a skipped
  category, a `0 - 0 of 0` result, or a rendered results page) is
  modelled by an environment mapping the category index to that outcome.
-/

namespace MinutesPipeline

/-! ## Python string primitives -/

/-- Python's `text.split(sep)` for a one-character separator, on the
character-list representation.  `[].split('.') = ['']` in Python, hence
the base case `[[]]`. -/
def splitSep (c : Char) : List Char → List (List Char)
  | [] => [[]]
  | a :: rest =>
    match splitSep c rest with
    | [] => [[a]]
    | s :: ss => if a = c then [] :: s :: ss else (a :: s) :: ss

/-- Reasoning helper, the inverse of `splitSep`: interleave the
separator back between the parts. -/
def joinSep (c : Char) : List (List Char) → List Char
  | [] => []
  | [l] => l
  | l :: l' :: rest => l ++ c :: joinSep c (l' :: rest)

/-- Python's `sep.join(parts)` on Lean strings. -/
def pyJoin (sep : String) : List String → String
  | [] => ""
  | [s] => s
  | s :: t :: rest => s ++ sep ++ pyJoin sep (t :: rest)

/-- Python's `text.split(c)` on Lean strings. -/
def pySplit (c : Char) (s : String) : List String :=
  (splitSep c s.data).map String.mk

/-- Plain concatenation of a list of strings. -/
def concatAll : List String → String
  | [] => ""
  | s :: rest => s ++ concatAll rest

/-- Whitespace characters recognised by Python's `str.strip()`
(restricted to the ASCII range, which is all the source ever feeds it). -/
def pyIsSpace (c : Char) : Bool :=
  c == ' ' || c == '\t' || c == '\n' || c == '\r' || c == '\x0b' || c == '\x0c'

/-- `not text.strip()`: `true` iff the string is empty or all whitespace. -/
def isBlank (s : String) : Bool := s.data.all pyIsSpace

/-- Python's `name.endswith(suffix)`. -/
def pyEndsWith (s suffix : String) : Bool := suffix.data.isSuffixOf s.data

/-! ## `summarize_text.chunk_text` -/

/-- `MAX_TEXT_LENGTH_FOR_SINGLE_CALL` from `summarize_text.py`. -/
def MAX_TEXT_LENGTH_FOR_SINGLE_CALL : Nat := 30000

/-- `".".join(current_chunk) + "."` — the chunk emitted by `chunk_text`. -/
def mkChunk (current_chunk : List String) : String :=
  pyJoin "." current_chunk ++ "."

/-- The `for sentence in sentences` loop of `chunk_text`, with the
accumulated `chunks`, `current_length` and `current_chunk` state made
explicit.  `current_length` is a `Nat` (it is a sum of Python `len`s);
the comparison against `max_chunk_size` is over `Int` so that every
Python threshold, negative ones included, is representable. -/
def chunkLoop (max_chunk_size : Int) :
    List String → List String → Nat → List String → List String
  | [], chunks, _, current_chunk =>
    if current_chunk.isEmpty then chunks else chunks ++ [mkChunk current_chunk]
  | s :: rest, chunks, current_length, current_chunk =>
    let sentence_len := s.length + 1
    if ((current_length + sentence_len : Nat) : Int) ≤ max_chunk_size then
      chunkLoop max_chunk_size rest chunks (current_length + sentence_len)
        (current_chunk ++ [s])
    else
      let chunks' :=
        if current_chunk.isEmpty then chunks else chunks ++ [mkChunk current_chunk]
      chunkLoop max_chunk_size rest chunks' sentence_len [s]

/-- `chunk_text` from `summarize_text.py`. -/
def chunk_text (text : String) (max_chunk_size : Int) : List String :=
  chunkLoop max_chunk_size (pySplit '.' text) [] 0 []

/-! ## `summarize_text.summarize_text_with_gemini` -/

/-- Outcome of one `model.generate_content(prompt, ...)` call:
a response with candidates (`response.text`), a response without
candidates (its debug representation), or a raised exception (its
string representation). -/
inductive GenResult where
  | ok (text : String)
  | noCandidates (debug : String)
  | err (msg : String)
deriving DecidableEq, Repr

/-- Whether a call outcome is a raised exception. -/
def GenResult.isErr : GenResult → Bool
  | .err _ => true
  | _ => false

/-- One run of the external generative API: the outcome of the `n`-th
`generate_content` call (0-based) as a function of the prompt passed. -/
def GenApi : Type := Nat → String → GenResult

/-- `base_prompt` from `summarize_text_with_gemini`. -/
def base_prompt : String :=
  "Provide a concise and objective summary of the following text in English, focusing on key ideas and facts. Present the summary as a list of bullet points for better readability. Avoid personal opinions and do not include additional content not present in the text. Ensure the summary is logically complete and no sentence is cut off:\n\n"

/-- The per-chunk prompt built inside the chunk loop. -/
def chunkPrompt (chunk : String) : String :=
  base_prompt ++ "This is part of a larger document, so focus on the content of this specific section.\n\n" ++ chunk

/-- The prompt of the final (map-then-reduce) summarization pass. -/
def finalPrompt (combined_summaries : String) : String :=
  base_prompt ++ "Summarize the following summaries to create one coherent and objective overall summary of the entire document. Focus on the most important points to create a brief and complete overview. Ensure the summary is logically complete and no sentence is cut off:\n\n" ++ combined_summaries

/-- Result of the summarizer: the returned string together with the
number of `generate_content` calls performed during the run. -/
structure SummOut where
  output : String
  apiCalls : Nat
deriving DecidableEq, Repr

/-- The `for i, chunk in enumerate(chunks)` loop: summarize each chunk,
collecting `summaries`; a raised exception returns the error string at
once (`.error`), short-circuiting the remaining chunks.  The `Nat`
component counts `generate_content` calls. -/
def chunkSummLoop (gen : GenApi) :
    List String → Nat → List String → Except (String × Nat) (List String × Nat)
  | [], calls, summaries => .ok (summaries, calls)
  | chunk :: rest, calls, summaries =>
    match gen calls (chunkPrompt chunk) with
    | .ok t => chunkSummLoop gen rest (calls + 1) (summaries ++ [t])
    | .noCandidates _ => chunkSummLoop gen rest (calls + 1) summaries
    | .err e =>
      .error ("An error occurred while summarizing part of the document: " ++ e, calls + 1)

/-- The final summarization pass over the combined chunk summaries
(`if len(summaries) > 1` branch body). -/
def finalPass (gen : GenApi) (calls : Nat) (combined_summaries : String)
    (fill : String → Nat → String) : SummOut :=
  match gen calls (finalPrompt combined_summaries) with
  | .ok t => ⟨fill t 80, calls + 1⟩
  | .noCandidates d => ⟨"Gemini did not generate final summary. Debug: " ++ d, calls + 1⟩
  | .err e =>
    ⟨"An error occurred while calling Gemini API for final summarization: " ++ e, calls + 1⟩

/-- `summarize_text_with_gemini` from `summarize_text.py`.  `model` is
`none` when the Gemini model was not initialized; `fill` models
`textwrap.fill`. -/
def summarize_text_with_gemini (model : Option GenApi) (text_to_summarize : String)
    (fill : String → Nat → String) : SummOut :=
  match model with
  | none => ⟨"Error: Gemini model not initialized. Check API key.", 0⟩
  | some gen =>
    if isBlank text_to_summarize then
      ⟨"Error: Input text for summarization is empty.", 0⟩
    else if MAX_TEXT_LENGTH_FOR_SINGLE_CALL < text_to_summarize.length then
      let chunks := chunk_text text_to_summarize (MAX_TEXT_LENGTH_FOR_SINGLE_CALL : Int)
      match chunkSummLoop gen chunks 0 [] with
      | .error (msg, calls) => ⟨msg, calls⟩
      | .ok (summaries, calls) =>
        match summaries with
        | [] => ⟨"Could not get any summaries from document parts.", calls⟩
        | s :: rest =>
          if 1 < (s :: rest).length then
            finalPass gen calls (pyJoin "\n\n" (s :: rest)) fill
          else
            ⟨fill s 80, calls⟩
    else
      match gen 0 (base_prompt ++ text_to_summarize) with
      | .ok t => ⟨fill t 80, 1⟩
      | .noCandidates d =>
        ⟨"Gemini did not generate text. Perhaps there\x27s an issue with the prompt or model. Debug: " ++ d, 1⟩
      | .err e => ⟨"An error occurred while calling Gemini API: " ++ e, 1⟩

/-! ## `pdf_downloader.wait_for_file_download_completion`

Time is counted in half-second ticks: `time.sleep(0.5)` advances the
clock by 1 tick, `time.sleep(1)` by 2 ticks, and every other operation
is instantaneous.  A `file_download_timeout` of `n` seconds is `2 * n`
ticks.  The filesystem is a time-indexed view: `listdir t` is
`os.listdir` at tick `t`, `present t p` is `os.path.exists(p)` and
`size t p` is `os.path.getsize(p)` (meaningful while the file is
present; the modelled scenarios never remove a file mid-run). -/

/-- Time-indexed view of the download directory. -/
structure FS where
  listdir : Nat → List String
  present : Nat → String → Bool
  size : Nat → String → Nat

/-- The `for _ in range(5)` size-stability loop run for a candidate that
already bears the final `.pdf` extension.  Arguments: samples left,
current tick, `stable_check_count`, `last_size`.  Returns the final
`last_size`, the `download_complete` flag and the tick after the loop.
Each sample is preceded by `time.sleep(0.5)` (1 tick). -/
def pdfStabilityLoop (fs : FS) (path : String) :
    Nat → Nat → Nat → Int → Int × Bool × Nat
  | 0, t, _, last_size => (last_size, false, t)
  | k + 1, t, stable_check_count, last_size =>
    let t' := t + 1
    let new_size : Int := (fs.size t' path : Int)
    let cnt := if new_size = last_size ∧ 0 < new_size then stable_check_count + 1 else 0
    if 3 ≤ cnt then (new_size, true, t')
    else pdfStabilityLoop fs path k t' cnt new_size

/-- The `for filename in potential_downloads` loop.  State: remaining
candidate names, current tick, `last_size`, `downloaded_filepath`.
Returns the updated `last_size`, `downloaded_filepath`, the
`download_complete` flag and the tick after the loop. -/
def processPotential (fs : FS) (download_dir : String) :
    List String → Nat → Int → Option String → Int × Option String × Bool × Nat
  | [], t, last_size, result => (last_size, result, false, t)
  | filename :: rest, t, last_size, result =>
    let path := download_dir ++ "/" ++ filename
    if fs.present t path ∧ 0 < fs.size t path then
      if pyEndsWith filename ".crdownload" || pyEndsWith filename ".tmp" then
        let current_size : Int := (fs.size t path : Int)
        if current_size = last_size ∧ 0 < current_size then
          (last_size, some path, true, t)
        else
          processPotential fs download_dir rest t current_size result
      else
        let result' := some path
        let out := pdfStabilityLoop fs path 5 t 0 last_size
        if out.2.1 then (out.1, result', true, out.2.2)
        else processPotential fs download_dir rest out.2.2 out.1 result'
    else
      processPotential fs download_dir rest t last_size result

/-- The outer `while` polling loop.  `fuel` bounds the number of
iterations (the time guard `t < timeoutTicks` exits first, since each
non-final iteration advances the clock by at least 2 ticks). -/
def waitLoop (fs : FS) (download_dir : String) (initial_files : List String)
    (timeoutTicks : Nat) : Nat → Nat → Int → Option String → Option String
  | 0, _, _, result => result
  | fuel + 1, t, last_size, result =>
    if t < timeoutTicks then
      let current_files := fs.listdir t
      let new_files := current_files.filter (fun f => !(initial_files.contains f))
      let potential_downloads := new_files.filter (fun f =>
        pyEndsWith f ".pdf" || pyEndsWith f ".crdownload" || pyEndsWith f ".tmp")
      let out := processPotential fs download_dir potential_downloads t last_size result
      if out.2.2.1 then out.2.1
      else waitLoop fs download_dir initial_files timeoutTicks fuel (out.2.2.2 + 2) out.1 out.2.1
    else result

/-- `wait_for_file_download_completion` from `pdf_downloader.py`;
`file_download_timeout` is in seconds. -/
def wait_for_file_download_completion (fs : FS) (download_dir : String)
    (initial_files : List String) (file_download_timeout : Nat) : Option String :=
  waitLoop fs download_dir initial_files (2 * file_download_timeout)
    (2 * file_download_timeout) 0 (-1) none

/-! ## `id_extractor.extract_ids_from_meeting_minutes`

Driving the browser for one category is an external collaborator; its
observable outcome is one of: a per-category failure (any of the
`continue` paths: dropdown not found / not clickable, submit failure,
results timeout), the `"0 - 0 of 0"` no-results marker, or a rendered
results page.  A rendered page is abstracted to the list of document
ids matched, in document order, by the `id=(\d+)` pattern over the
`DocView.aspx` links (the HTML parsing itself is done by the external
BeautifulSoup / `re` libraries).  Python's `set()` accumulation followed
by `list(...)` is modelled by `List.dedup` (one concrete enumeration
order of the set). -/

/-- Outcome of processing one category in the browser. -/
inductive CategoryOutcome where
  | failure
  | noResults
  | page (idsInOrder : List String)
deriving DecidableEq, Repr

/-- Python `dict` assignment `d[k] = v`: replace in place if the key is
present (Python dicts keep the original key position), append otherwise. -/
def pyDictInsert (d : List (String × List String)) (k : String) (v : List String) :
    List (String × List String) :=
  if d.any (fun p => p.1 == k) then
    d.map (fun p => if p.1 == k then (p.1, v) else p)
  else d ++ [(k, v)]

/-- The keys of a modelled Python dict, in iteration order. -/
def dictKeys (d : List (String × List String)) : List String := d.map (·.1)

/-- The `for category_index, category in enumerate(categories)` loop of
`extract_ids_from_meeting_minutes`: a failed category is skipped with no
entry, a no-results category gets `[]`, and a results page gets the
de-duplicated id list. -/
def extractLoop (env : Nat → CategoryOutcome) :
    List String → Nat → List (String × List String) → List (String × List String)
  | [], _, all_extracted_ids => all_extracted_ids
  | category :: rest, i, all_extracted_ids =>
    match env i with
    | .failure => extractLoop env rest (i + 1) all_extracted_ids
    | .noResults => extractLoop env rest (i + 1) (pyDictInsert all_extracted_ids category [])
    | .page ids => extractLoop env rest (i + 1) (pyDictInsert all_extracted_ids category ids.dedup)

/-- `extract_ids_from_meeting_minutes` from `id_extractor.py`.
`categories = none` means "discover the category list from the page";
`discovered` is the list the dropdown yields in that case, and `env`
is the per-category browsing outcome. -/
def extract_ids_from_meeting_minutes (categories : Option (List String))
    (discovered : List String) (env : Nat → CategoryOutcome) :
    List (String × List String) :=
  extractLoop env (categories.getD discovered) 0 []

/-- `BASE_DOC_VIEW_URL_TEMPLATE.format(doc_id=doc_id)`. -/
def formatDocViewUrl (doc_id : String) : String :=
  "https://portal.laserfiche.com/Portal/DocView.aspx?id=" ++ doc_id ++ "&repo=r-5c10bb82"

/-- `process_and_generate_links` from `id_extractor.py`. -/
def process_and_generate_links (extracted_data : List (String × List String)) :
    List String :=
  if extracted_data.isEmpty then []
  else
    extracted_data.foldl
      (fun generated_links p =>
        if p.2.isEmpty then generated_links
        else generated_links ++ p.2.map formatDocViewUrl)
      []

/-! ## Concrete scenarios used by counterexamples and witnesses -/

/-- A 20000-character sentence (no delimiter occurrences). -/
def bigSent : List Char := List.replicate 20000 'a'

/-- The 20000-character sentence as a string. -/
def bigA : String := String.mk bigSent

/-- A 40001-character text of two 20000-character sentences: longer than
`MAX_TEXT_LENGTH_FOR_SINGLE_CALL`, splitting into exactly two chunks at
threshold 30000. -/
def bigText : String := bigA ++ "." ++ bigA

/-- Identity line filler (a concrete `textwrap.fill` stand-in). -/
def fillId : String → Nat → String := fun s _ => s

/-- API run for the C4 counterexample: the first call bears text, every
later call returns a candidate-less response. -/
def gen4 : GenApi := fun i _ =>
  match i with
  | 0 => .ok "A"
  | _ => .noCandidates "dbg"

/-- API run for the C5 witness: the first call bears text, every later
call raises. -/
def gen5 : GenApi := fun i _ =>
  match i with
  | 0 => .ok "A"
  | _ => .err "boom"

/-- API run whose every call bears the text `"A"`. -/
def genOk : GenApi := fun _ _ => .ok "A"

/-- C3 scenario: the only new directory entry is a temp-extension file
whose observed size is a constant 100. -/
def fs3a : FS where
  listdir := fun _ => ["report.pdf.crdownload"]
  present := fun _ _ => true
  size := fun _ _ => 100

/-- C3 scenario: the temp-extension file's size reads 100 on the first
poll (tick 0) and 150 afterwards, so the outer polls observe
`100, 150, 150, ...`. -/
def fs3b : FS where
  listdir := fun _ => ["report.pdf.crdownload"]
  present := fun _ _ => true
  size := fun t _ => if t = 0 then 100 else 150

/-- C7 witness scenario: a final-extension file of constant size 100. -/
def fsStable : FS where
  listdir := fun _ => ["report.pdf"]
  present := fun _ _ => true
  size := fun _ _ => 100

/-- C7/C9 witness scenario: a final-extension file whose size grows
every tick (never two equal consecutive samples, always positive). -/
def fsGrow : FS where
  listdir := fun _ => ["report.pdf"]
  present := fun _ _ => true
  size := fun t _ => t + 1

/-- C2 counterexample environment: the first category fails (is skipped),
the second yields a one-document results page. -/
def envC2 : Nat → CategoryOutcome := fun i =>
  match i with
  | 0 => .failure
  | _ => .page ["1"]

/-- C2 witness environment: every category yields the same results page
with one duplicated id. -/
def envW2 : Nat → CategoryOutcome := fun _ => .page ["7", "7", "3"]


/-! ## String and split/join lemmas -/

theorem mk_append (a b : List Char) : String.mk a ++ String.mk b = String.mk (a ++ b) := rfl

theorem length_mk (l : List Char) : (String.mk l).length = l.length := rfl

theorem length_dot : ("." : String).length = 1 := rfl

theorem splitSep_ne_nil (c : Char) (l : List Char) : splitSep c l ≠ [] := by
  cases l with
  | nil => simp [splitSep]
  | cons a rest =>
    cases h : splitSep c rest with
    | nil => simp [splitSep, h]
    | cons s ss =>
      simp only [splitSep, h]
      split <;> simp

theorem joinSep_splitSep (c : Char) (l : List Char) : joinSep c (splitSep c l) = l := by
  induction l with
  | nil => rfl
  | cons a rest ih =>
    cases h : splitSep c rest with
    | nil => exact absurd h (splitSep_ne_nil c rest)
    | cons s ss =>
      rw [h] at ih
      simp only [splitSep, h]
      by_cases hac : a = c
      · rw [if_pos hac, hac]
        show [] ++ c :: joinSep c (s :: ss) = c :: rest
        rw [List.nil_append, ih]
      · rw [if_neg hac]
        cases ss with
        | nil =>
          simp only [joinSep] at ih ⊢
          rw [ih]
        | cons s' ss' =>
          simp only [joinSep] at ih ⊢
          rw [List.cons_append, ih]

theorem pyJoin_map_mk (parts : List (List Char)) :
    pyJoin "." (parts.map String.mk) = String.mk (joinSep '.' parts) := by
  match parts with
  | [] => rfl
  | [l] => rfl
  | l :: l' :: rest =>
    show String.mk l ++ "." ++ pyJoin "." ((l' :: rest).map String.mk) = _
    rw [pyJoin_map_mk (l' :: rest)]
    apply String.ext
    simp [String.data_append, joinSep]

theorem pyJoin_pySplit (s : String) : pyJoin "." (pySplit '.' s) = s := by
  rw [pySplit, pyJoin_map_mk, joinSep_splitSep]

theorem pySplit_ne_nil (c : Char) (s : String) : pySplit c s ≠ [] := by
  simp [pySplit, splitSep_ne_nil]

theorem pyJoin_append (as bs : List String) (ha : as ≠ []) (hb : bs ≠ []) :
    pyJoin "." (as ++ bs) = pyJoin "." as ++ "." ++ pyJoin "." bs := by
  match as with
  | [] => exact absurd rfl ha
  | [a] =>
    match bs, hb with
    | b :: bs', _ => rfl
  | a :: a' :: as' =>
    have e : pyJoin "." (a :: a' :: as') = a ++ "." ++ pyJoin "." (a' :: as') := rfl
    show a ++ "." ++ pyJoin "." ((a' :: as') ++ bs) = _
    rw [pyJoin_append (a' :: as') bs (by simp) hb, e]
    simp [String.append_assoc]

theorem mkChunk_append (as bs : List String) (ha : as ≠ []) (hb : bs ≠ []) :
    mkChunk (as ++ bs) = mkChunk as ++ mkChunk bs := by
  rw [mkChunk, mkChunk, mkChunk, pyJoin_append as bs ha hb]
  simp [String.append_assoc]

theorem mkChunk_length (cur : List String) (h : cur ≠ []) :
    (mkChunk cur).length = (cur.map (fun s => s.length + 1)).sum := by
  match cur with
  | [] => exact absurd rfl h
  | [s] =>
    show (s ++ ".").length = _
    simp [String.length_append, length_dot]
  | s :: s' :: rest =>
    have ih := mkChunk_length (s' :: rest) (by simp)
    show (s ++ "." ++ pyJoin "." (s' :: rest) ++ ".").length = _
    simp only [mkChunk, String.length_append, length_dot, List.map_cons, List.sum_cons] at ih ⊢
    omega

theorem splitSep_sum_lengths (c : Char) (l : List Char) :
    ((splitSep c l).map (fun p => p.length + 1)).sum = l.length + 1 := by
  induction l with
  | nil => rfl
  | cons a rest ih =>
    cases h : splitSep c rest with
    | nil => exact absurd h (splitSep_ne_nil c rest)
    | cons s ss =>
      rw [h] at ih
      simp only [splitSep, h]
      by_cases hac : a = c
      · rw [if_pos hac]
        simp only [List.map_cons, List.sum_cons, List.length_cons, List.length_nil] at ih ⊢
        omega
      · rw [if_neg hac]
        simp only [List.map_cons, List.sum_cons, List.length_cons, List.length_nil] at ih ⊢
        omega

theorem pySplit_sum_lengths (text : String) :
    ((pySplit '.' text).map (fun s => s.length + 1)).sum = text.length + 1 := by
  rw [pySplit, List.map_map]
  exact splitSep_sum_lengths '.' text.data

/-! ## `chunk_text` lemmas -/

theorem concatAll_cons (s : String) (l : List String) :
    concatAll (s :: l) = s ++ concatAll l := rfl

theorem chunkLoop_acc (m : Int) (ss : List String) :
    ∀ chunks current_length current_chunk,
    chunkLoop m ss chunks current_length current_chunk
      = chunks ++ chunkLoop m ss [] current_length current_chunk := by
  induction ss with
  | nil =>
    intro chunks len cur
    simp only [chunkLoop]
    split <;> simp
  | cons s rest ih =>
    intro chunks len cur
    simp only [chunkLoop]
    split
    · exact ih ..
    · by_cases hcur : cur.isEmpty
      · simp only [if_pos hcur]
        rw [ih chunks (s.length + 1) [s]]
      · simp only [if_neg hcur]
        rw [ih (chunks ++ [mkChunk cur]) (s.length + 1) [s],
          ih ([] ++ [mkChunk cur]) (s.length + 1) [s]]
        simp

theorem chunkLoop_concat_ne (m : Int) (ss : List String) :
    ∀ current_length current_chunk, current_chunk ≠ [] →
    concatAll (chunkLoop m ss [] current_length current_chunk)
      = mkChunk (current_chunk ++ ss) := by
  induction ss with
  | nil =>
    intro len cur hcur
    simp only [chunkLoop]
    rw [if_neg (by simpa using hcur)]
    simp [concatAll, String.append_empty]
  | cons s rest ih =>
    intro len cur hcur
    simp only [chunkLoop]
    split
    · rw [ih _ (cur ++ [s]) (by simp)]
      simp
    · rw [if_neg (by simpa using hcur)]
      rw [show ([] ++ [mkChunk cur] : List String) = [mkChunk cur] from rfl]
      rw [chunkLoop_acc]
      rw [show ([mkChunk cur] ++ chunkLoop m rest [] (s.length + 1) [s])
            = mkChunk cur :: chunkLoop m rest [] (s.length + 1) [s] from rfl]
      rw [concatAll_cons, ih (s.length + 1) [s] (by simp)]
      simp only [List.singleton_append]
      rw [← mkChunk_append cur (s :: rest) hcur (by simp)]

theorem chunkLoop_concat_nil (m : Int) (ss : List String) (hss : ss ≠ []) (len : Nat) :
    concatAll (chunkLoop m ss [] len []) = mkChunk ss := by
  match ss, hss with
  | s :: rest, _ =>
    simp only [chunkLoop]
    split
    · rw [chunkLoop_concat_ne m rest _ ([] ++ [s]) (by simp)]
      simp
    · rw [show (if ([] : List String).isEmpty then ([] : List String)
            else [] ++ [mkChunk []]) = [] from rfl]
      rw [chunkLoop_concat_ne m rest _ [s] (by simp)]
      simp

/-- The plain concatenation of all chunks of `chunk_text` is the input
text followed by one trailing delimiter. -/
theorem chunk_text_concat (text : String) (m : Int) :
    concatAll (chunk_text text m) = text ++ "." := by
  rw [chunk_text, chunkLoop_concat_nil m _ (pySplit_ne_nil '.' text) 0, mkChunk,
    pyJoin_pySplit]

theorem chunkLoop_fits (m : Int) (ss : List String) :
    ∀ chunks current_length current_chunk,
    ((current_length + (ss.map (fun s => s.length + 1)).sum : Nat) : Int) ≤ m →
    chunkLoop m ss chunks current_length current_chunk
      = if (current_chunk ++ ss).isEmpty then chunks
        else chunks ++ [mkChunk (current_chunk ++ ss)] := by
  induction ss with
  | nil =>
    intro chunks len cur _
    simp [chunkLoop]
  | cons s rest ih =>
    intro chunks len cur h
    simp only [List.map_cons, List.sum_cons] at h
    simp only [chunkLoop]
    rw [if_pos (le_trans (Nat.cast_le.mpr (by omega)) h)]
    rw [ih chunks (len + (s.length + 1)) (cur ++ [s])
      (le_trans (Nat.cast_le.mpr (by omega)) h)]
    simp

/-- An input that fits in one chunk yields exactly one chunk: the text
plus the trailing delimiter. -/
theorem chunk_text_fits (text : String) (m : Int)
    (h : ((text.length + 1 : Nat) : Int) ≤ m) :
    chunk_text text m = [text ++ "."] := by
  rw [chunk_text, chunkLoop_fits m _ [] 0 []
    (by rw [pySplit_sum_lengths]; simpa using h)]
  rw [if_neg (by simpa using pySplit_ne_nil '.' text)]
  rw [show ([] ++ pySplit '.' text) = pySplit '.' text from rfl]
  rw [mkChunk, pyJoin_pySplit]
  rfl

theorem chunkLoop_bound (m : Int) (ss : List String) :
    ∀ chunks current_length current_chunk,
    (∀ s ∈ ss, ((s.length + 1 : Nat) : Int) ≤ m) →
    current_length = (current_chunk.map (fun s => s.length + 1)).sum →
    (current_chunk ≠ [] → ((current_length : Nat) : Int) ≤ m) →
    (∀ c ∈ chunks, ((c.length : Nat) : Int) ≤ m) →
    ∀ c ∈ chunkLoop m ss chunks current_length current_chunk,
      ((c.length : Nat) : Int) ≤ m := by
  induction ss with
  | nil =>
    intro chunks len cur _ hlen hcur hchunks c hc
    simp only [chunkLoop] at hc
    by_cases he : cur.isEmpty
    · rw [if_pos he] at hc
      exact hchunks c hc
    · rw [if_neg he] at hc
      rcases List.mem_append.mp hc with h | h
      · exact hchunks c h
      · have hcurne : cur ≠ [] := by simpa using he
        have hl : c = mkChunk cur := by simpa using h
        rw [hl, mkChunk_length cur hcurne, ← hlen]
        exact hcur hcurne
  | cons s rest ih =>
    intro chunks len cur hsent hlen hcur hchunks c hc
    simp only [chunkLoop] at hc
    by_cases hle : ((len + (s.length + 1) : Nat) : Int) ≤ m
    · rw [if_pos hle] at hc
      refine ih chunks (len + (s.length + 1)) (cur ++ [s])
        (fun t ht => hsent t (List.mem_cons_of_mem s ht)) ?_ (fun _ => hle) hchunks c hc
      simp [hlen]
    · rw [if_neg hle] at hc
      by_cases he : cur.isEmpty
      · rw [if_pos he] at hc
        refine ih chunks (s.length + 1) [s]
          (fun t ht => hsent t (List.mem_cons_of_mem s ht)) (by simp)
          (fun _ => hsent s (List.mem_cons_self s rest)) hchunks c hc
      · rw [if_neg he] at hc
        have hcurne : cur ≠ [] := by simpa using he
        refine ih (chunks ++ [mkChunk cur]) (s.length + 1) [s]
          (fun t ht => hsent t (List.mem_cons_of_mem s ht)) (by simp)
          (fun _ => hsent s (List.mem_cons_self s rest)) ?_ c hc
        intro d hd
        rcases List.mem_append.mp hd with h | h
        · exact hchunks d h
        · have hl : d = mkChunk cur := by simpa using h
          rw [hl, mkChunk_length cur hcurne, ← hlen]
          exact hcur hcurne

theorem mkChunk_shape (cur : List String) :
    mkChunk cur ≠ "" ∧ (mkChunk cur).data.getLast? = some '.' := by
  constructor
  · intro h
    have hd := congrArg String.data h
    rw [mkChunk, String.data_append] at hd
    simp at hd
  · rw [mkChunk, String.data_append]
    exact List.getLast?_concat _

theorem chunkLoop_shape (m : Int) (ss : List String) :
    ∀ chunks current_length current_chunk,
    (∀ c ∈ chunks, c ≠ "" ∧ c.data.getLast? = some '.') →
    ∀ c ∈ chunkLoop m ss chunks current_length current_chunk,
      c ≠ "" ∧ c.data.getLast? = some '.' := by
  induction ss with
  | nil =>
    intro chunks len cur hchunks c hc
    simp only [chunkLoop] at hc
    split at hc
    · exact hchunks c hc
    · rcases List.mem_append.mp hc with h | h
      · exact hchunks c h
      · have hl : c = mkChunk cur := by simpa using h
        rw [hl]; exact mkChunk_shape cur
  | cons s rest ih =>
    intro chunks len cur hchunks c hc
    simp only [chunkLoop] at hc
    split at hc
    · exact ih chunks _ _ hchunks c hc
    · split at hc
      · exact ih chunks _ _ hchunks c hc
      · refine ih (chunks ++ [mkChunk cur]) _ _ ?_ c hc
        intro d hd
        rcases List.mem_append.mp hd with h | h
        · exact hchunks d h
        · have hl : d = mkChunk cur := by simpa using h
          rw [hl]; exact mkChunk_shape cur

theorem chunkLoop_ne_nil (m : Int) (ss : List String) :
    ∀ chunks current_length current_chunk,
    chunks ≠ [] ∨ current_chunk ≠ [] ∨ ss ≠ [] →
    chunkLoop m ss chunks current_length current_chunk ≠ [] := by
  induction ss with
  | nil =>
    intro chunks len cur h
    simp only [chunkLoop]
    by_cases he : cur.isEmpty
    · rw [if_pos he]
      rcases h with h | h | h
      · exact h
      · exact absurd (by simpa using he) h
      · exact absurd rfl h
    · rw [if_neg he]
      simp
  | cons s rest ih =>
    intro chunks len cur _
    simp only [chunkLoop]
    split
    · exact ih _ _ _ (Or.inr (Or.inl (by simp)))
    · split <;> exact ih _ _ _ (Or.inr (Or.inl (by simp)))

/-! ## Evaluation lemmas for the concrete large text -/

theorem bigA_length : bigA.length = 20000 := by
  rw [bigA, length_mk, bigSent, List.length_replicate]

theorem dot_not_mem_bigSent : '.' ∉ bigSent := by
  intro h
  rw [bigSent] at h
  rcases List.mem_replicate.mp h with ⟨-, h2⟩
  exact absurd h2 (by decide)

theorem splitSep_append_not_mem (c : Char) (l₁ rest : List Char)
    (h : c ∉ l₁) (s : List Char) (ss : List (List Char))
    (hr : splitSep c rest = s :: ss) :
    splitSep c (l₁ ++ rest) = (l₁ ++ s) :: ss := by
  induction l₁ with
  | nil => simpa using hr
  | cons a l ih =>
    have ha : a ≠ c := by
      intro e
      exact h (e ▸ List.mem_cons_self a l)
    have ih' := ih (fun hm => h (List.mem_cons_of_mem a hm))
    show splitSep c (a :: (l ++ rest)) = _
    simp only [splitSep, ih']
    rw [if_neg ha]
    rfl

theorem splitSep_not_mem (c : Char) (l : List Char) (h : c ∉ l) :
    splitSep c l = [l] := by
  have h0 := splitSep_append_not_mem c l [] h [] [] rfl
  simpa using h0

theorem bigText_data : bigText.data = bigSent ++ '.' :: bigSent := by
  have e : bigA.data = bigSent := rfl
  have ed : ("." : String).data = ['.'] := rfl
  rw [bigText, String.data_append, String.data_append, e, ed, List.append_assoc]
  rfl

theorem splitSep_cons_self (c : Char) (l : List Char) :
    splitSep c (c :: l) = [] :: splitSep c l := by
  cases h : splitSep c l with
  | nil => exact absurd h (splitSep_ne_nil c l)
  | cons s ss =>
    simp only [splitSep, h]
    rw [if_pos trivial]

theorem pySplit_bigText : pySplit '.' bigText = [bigA, bigA] := by
  rw [pySplit, bigText_data]
  have h1 : splitSep '.' bigSent = [bigSent] :=
    splitSep_not_mem _ _ dot_not_mem_bigSent
  have h2 : splitSep '.' ('.' :: bigSent) = [] :: [bigSent] := by
    rw [splitSep_cons_self, h1]
  rw [splitSep_append_not_mem '.' bigSent ('.' :: bigSent) dot_not_mem_bigSent
    [] [bigSent] h2]
  simp [bigA]

theorem chunk_two (m : Int) (x y : String)
    (h1 : ((0 + (x.length + 1) : Nat) : Int) ≤ m)
    (h2 : ¬ ((0 + (x.length + 1) + (y.length + 1) : Nat) : Int) ≤ m) :
    chunkLoop m [x, y] [] 0 [] = [x ++ ".", y ++ "."] := by
  simp only [chunkLoop]
  rw [if_pos h1, if_neg h2]
  simp [mkChunk, pyJoin]

theorem bigChunks : chunk_text bigText ((MAX_TEXT_LENGTH_FOR_SINGLE_CALL : Nat) : Int)
    = [bigA ++ ".", bigA ++ "."] := by
  rw [chunk_text, pySplit_bigText]
  apply chunk_two
  · rw [bigA_length]
    norm_num [MAX_TEXT_LENGTH_FOR_SINGLE_CALL]
  · rw [bigA_length]
    norm_num [MAX_TEXT_LENGTH_FOR_SINGLE_CALL]

theorem bigText_length : bigText.length = 40001 := by
  rw [show bigText.length = bigText.data.length from rfl, bigText_data,
    List.length_append, List.length_cons, bigSent, List.length_replicate]

theorem bigText_not_blank : isBlank bigText = false := by
  have hdot : pyIsSpace '.' = false := rfl
  rw [isBlank, bigText_data]
  simp [List.all_append, List.all_cons, hdot]

/-! ## Claim C1 -/

/-- C1, counterexample: at input text `"aaaa"` and positive threshold 3
(a sentence longer than the threshold), `chunk_text` emits the single
chunk `"aaaa."` of length 5 > 3, so the claim's "each chunk has length
at most the threshold" fails. -/
theorem C1_counterexample :
    (0 : Int) < 3 ∧ chunk_text "aaaa" 3 = ["aaaa."]
    ∧ ¬ ∀ c ∈ chunk_text "aaaa" 3, ((c.length : Nat) : Int) ≤ 3 := by
  decide

/-- C1 (amended): for every text and positive threshold, (i) every chunk
of `chunk_text` has length at most the threshold *provided every
sentence of the split is short enough for the threshold*; (ii) the plain
concatenation of all chunks is the original text plus one trailing
delimiter; (iii) an input that fits in one chunk yields exactly one
chunk equal to the text plus the trailing delimiter. -/
theorem C1_amended_chunk_text_spec (text : String) (m : Int) (hpos : 0 < m) :
    ((∀ s ∈ pySplit '.' text, ((s.length + 1 : Nat) : Int) ≤ m) →
      ∀ c ∈ chunk_text text m, ((c.length : Nat) : Int) ≤ m)
    ∧ concatAll (chunk_text text m) = text ++ "."
    ∧ (((text.length + 1 : Nat) : Int) ≤ m → chunk_text text m = [text ++ "."]) := by
  refine ⟨?_, chunk_text_concat text m, fun h => chunk_text_fits text m h⟩
  intro hsent
  exact chunkLoop_bound m (pySplit '.' text) [] 0 [] hsent rfl
    (fun h => absurd rfl h) (by simp)

/-- C1 witness: the amended statement evaluated at `"ab.c"`, threshold 6. -/
theorem C1_amended_chunk_text_spec_witness :
    (0 : Int) < 6
    ∧ ((∀ s ∈ pySplit '.' "ab.c", ((s.length + 1 : Nat) : Int) ≤ 6) →
        ∀ c ∈ chunk_text "ab.c" 6, ((c.length : Nat) : Int) ≤ 6)
    ∧ concatAll (chunk_text "ab.c" 6) = "ab.c" ++ "."
    ∧ ((("ab.c".length + 1 : Nat) : Int) ≤ 6 → chunk_text "ab.c" 6 = ["ab.c" ++ "."]) :=
  ⟨by norm_num, C1_amended_chunk_text_spec "ab.c" 6 (by norm_num)⟩

/-! ## Claim C10 -/

/-- C10: for every input string (the empty string included) and every
threshold, `chunk_text` returns a non-empty list, and every returned
chunk is non-empty and ends with the delimiter character. -/
theorem C10_chunk_text_nonempty_chunks (text : String) (m : Int) :
    chunk_text text m ≠ []
    ∧ ∀ c ∈ chunk_text text m, c ≠ "" ∧ c.data.getLast? = some '.' := by
  constructor
  · exact chunkLoop_ne_nil m (pySplit '.' text) [] 0 []
      (Or.inr (Or.inr (pySplit_ne_nil '.' text)))
  · exact chunkLoop_shape m (pySplit '.' text) [] 0 [] (by simp)

/-! ## `summarize_text_with_gemini` lemmas -/

theorem chunkSummLoop_allOk (gen : GenApi) (ts : Nat → String) :
    ∀ (l : List String) (calls : Nat) (acc : List String),
    (∀ i, i < l.length → gen (calls + i) (chunkPrompt (l.getD i "")) = .ok (ts (calls + i))) →
    chunkSummLoop gen l calls acc
      = .ok (acc ++ (List.range l.length).map (fun i => ts (calls + i)),
             calls + l.length) := by
  intro l
  induction l with
  | nil =>
    intro calls acc _
    simp [chunkSummLoop]
  | cons chunk rest ih =>
    intro calls acc h
    have h0 := h 0 (Nat.succ_pos rest.length)
    rw [List.getD_cons_zero, Nat.add_zero] at h0
    simp only [chunkSummLoop, h0]
    rw [ih (calls + 1) (acc ++ [ts calls]) ?_]
    · have hmap : (List.range rest.length).map (fun i => ts (calls + 1 + i))
          = (List.range rest.length).map ((fun i => ts (calls + i)) ∘ Nat.succ) := by
        apply List.map_congr_left
        intro i _
        show ts (calls + 1 + i) = ts (calls + (i + 1))
        congr 1
        omega
      rw [List.length_cons, List.range_succ_eq_map, List.map_cons, hmap, ← List.map_map,
        Nat.add_zero, List.append_assoc,
        show calls + 1 + rest.length = calls + (rest.length + 1) from by omega]
      rfl
    · intro i hi
      have hh := h (i + 1) (Nat.succ_lt_succ hi)
      rw [List.getD_cons_succ] at hh
      have e2 : calls + (i + 1) = calls + 1 + i := by omega
      rwa [e2] at hh

theorem chunkSummLoop_err (gen : GenApi) :
    ∀ (l : List String) (k calls : Nat) (acc : List String) (e : String),
    k < l.length →
    (∀ i, i < k → (gen (calls + i) (chunkPrompt (l.getD i ""))).isErr = false) →
    gen (calls + k) (chunkPrompt (l.getD k "")) = .err e →
    chunkSummLoop gen l calls acc
      = .error ("An error occurred while summarizing part of the document: " ++ e,
                calls + k + 1) := by
  intro l
  induction l with
  | nil =>
    intro k calls acc e hk
    exact absurd hk (by simp)
  | cons chunk rest ih =>
    intro k calls acc e hk hprev herr
    cases k with
    | zero =>
      rw [List.getD_cons_zero, Nat.add_zero] at herr
      simp only [chunkSummLoop, herr]
    | succ k' =>
      have h0 : (gen calls (chunkPrompt chunk)).isErr = false := by
        have hh := hprev 0 (Nat.succ_pos k')
        rwa [List.getD_cons_zero, Nat.add_zero] at hh
      have hprev' : ∀ i, i < k' →
          (gen (calls + 1 + i) (chunkPrompt (rest.getD i ""))).isErr = false := by
        intro i hi
        have hh := hprev (i + 1) (Nat.succ_lt_succ hi)
        rw [List.getD_cons_succ] at hh
        have e2 : calls + (i + 1) = calls + 1 + i := by omega
        rwa [e2] at hh
      have herr' : gen (calls + 1 + k') (chunkPrompt (rest.getD k' "")) = .err e := by
        rw [List.getD_cons_succ] at herr
        have e2 : calls + (k' + 1) = calls + 1 + k' := by omega
        rwa [e2] at herr
      have hnum : calls + 1 + k' + 1 = calls + (k' + 1) + 1 := by omega
      cases hg : gen calls (chunkPrompt chunk) with
      | ok t =>
        simp only [chunkSummLoop, hg]
        rw [ih k' (calls + 1) (acc ++ [t]) e (by simpa using hk) hprev' herr', hnum]
      | noCandidates d =>
        simp only [chunkSummLoop, hg]
        rw [ih k' (calls + 1) acc e (by simpa using hk) hprev' herr', hnum]
      | err m =>
        rw [hg] at h0
        exact absurd h0 (by simp [GenResult.isErr])

theorem chunkSummLoop_cons (gen : GenApi) (chunk : String) (rest : List String)
    (calls : Nat) (acc : List String) :
    chunkSummLoop gen (chunk :: rest) calls acc
      = match gen calls (chunkPrompt chunk) with
        | .ok t => chunkSummLoop gen rest (calls + 1) (acc ++ [t])
        | .noCandidates _ => chunkSummLoop gen rest (calls + 1) acc
        | .err e =>
          .error ("An error occurred while summarizing part of the document: " ++ e,
                  calls + 1) := rfl

/-- Unfolding of `summarize_text_with_gemini` on the chunked branch. -/
theorem summarize_chunked (gen : GenApi) (text : String) (fill : String → Nat → String)
    (hnb : isBlank text = false)
    (hlen : MAX_TEXT_LENGTH_FOR_SINGLE_CALL < text.length) :
    summarize_text_with_gemini (some gen) text fill
      = (match chunkSummLoop gen
            (chunk_text text ((MAX_TEXT_LENGTH_FOR_SINGLE_CALL : Nat) : Int)) 0 [] with
         | .error (msg, calls) => ⟨msg, calls⟩
         | .ok (summaries, calls) =>
           match summaries with
           | [] => ⟨"Could not get any summaries from document parts.", calls⟩
           | s :: rest =>
             if 1 < (s :: rest).length then
               finalPass gen calls (pyJoin "\n\n" (s :: rest)) fill
             else ⟨fill s 80, calls⟩) := by
  simp only [summarize_text_with_gemini]
  rw [if_neg (by simp [hnb]), if_pos hlen]

/-! ## Claim C6 -/

/-- C6: with an initialized model, an empty or whitespace-only input
returns the fixed error string and performs no API call. -/
theorem C6_empty_input_no_call (gen : GenApi) (text : String)
    (fill : String → Nat → String) (h : isBlank text = true) :
    summarize_text_with_gemini (some gen) text fill
      = ⟨"Error: Input text for summarization is empty.", 0⟩ := by
  simp [summarize_text_with_gemini, h]

/-- C6 witness: the empty string. -/
theorem C6_empty_input_no_call_witness :
    isBlank "" = true
    ∧ summarize_text_with_gemini (some genOk) "" fillId
        = ⟨"Error: Input text for summarization is empty.", 0⟩ :=
  ⟨rfl, C6_empty_input_no_call genOk "" fillId rfl⟩

/-! ## Claim C5 -/

/-- C5: with an initialized model, a raised API failure on the `k`-th
chunk of a multi-chunk document makes `summarize_text_with_gemini`
return (not raise) the error string
`"An error occurred while summarizing part of the document: " ++ e`,
after exactly `k + 1` API calls — no calls happen for the remaining
chunks or the final pass (`k + 1 ≤ number of chunks`). -/
theorem C5_chunk_error_short_circuits (gen : GenApi) (text : String)
    (fill : String → Nat → String) (k : Nat) (e : String)
    (hnb : isBlank text = false)
    (hlen : MAX_TEXT_LENGTH_FOR_SINGLE_CALL < text.length)
    (hmulti : 1 < (chunk_text text ((MAX_TEXT_LENGTH_FOR_SINGLE_CALL : Nat) : Int)).length)
    (hk : k < (chunk_text text ((MAX_TEXT_LENGTH_FOR_SINGLE_CALL : Nat) : Int)).length)
    (hprev : ∀ i, i < k →
      (gen i (chunkPrompt
        ((chunk_text text ((MAX_TEXT_LENGTH_FOR_SINGLE_CALL : Nat) : Int)).getD i ""))).isErr
        = false)
    (herr : gen k (chunkPrompt
      ((chunk_text text ((MAX_TEXT_LENGTH_FOR_SINGLE_CALL : Nat) : Int)).getD k "")) = .err e) :
    summarize_text_with_gemini (some gen) text fill
      = ⟨"An error occurred while summarizing part of the document: " ++ e, k + 1⟩
    ∧ k + 1 ≤ (chunk_text text ((MAX_TEXT_LENGTH_FOR_SINGLE_CALL : Nat) : Int)).length := by
  refine ⟨?_, hk⟩
  have hloop := chunkSummLoop_err gen
    (chunk_text text ((MAX_TEXT_LENGTH_FOR_SINGLE_CALL : Nat) : Int)) k 0 [] e hk
    (by simpa using hprev) (by simpa using herr)
  simp only [summarize_text_with_gemini]
  rw [if_neg (by simp [hnb]), if_pos hlen]
  rw [hloop]
  simp

/-- C5 witness: the two-chunk `bigText` with an API run that succeeds on
chunk 1 and raises `"boom"` on chunk 2. -/
theorem C5_chunk_error_short_circuits_witness :
    isBlank bigText = false
    ∧ (summarize_text_with_gemini (some gen5) bigText fillId
        = ⟨"An error occurred while summarizing part of the document: " ++ "boom", 1 + 1⟩
      ∧ 1 + 1 ≤ (chunk_text bigText ((MAX_TEXT_LENGTH_FOR_SINGLE_CALL : Nat) : Int)).length) := by
  refine ⟨bigText_not_blank, ?_⟩
  refine C5_chunk_error_short_circuits gen5 bigText fillId 1 "boom" bigText_not_blank ?_ ?_ ?_ ?_ ?_
  · rw [bigText_length]
    norm_num [MAX_TEXT_LENGTH_FOR_SINGLE_CALL]
  · rw [bigChunks]
    norm_num
  · rw [bigChunks]
    norm_num
  · intro i hi
    have hz : i = 0 := Nat.lt_one_iff.mp hi
    rw [hz]
    rfl
  · rfl

/-! ## Claim C4 -/

/-- C4, counterexample: on the two-chunk `bigText` with an API run whose
second chunk call returns a candidate-less response, the splitter
produced more than one chunk, yet the single collected summary is
returned directly (2 API calls, not the 3 a second pass would need):
the code keys the second pass on `len(summaries) > 1`, not on the number
of chunks. -/
theorem C4_counterexample :
    1 < (chunk_text bigText ((MAX_TEXT_LENGTH_FOR_SINGLE_CALL : Nat) : Int)).length
    ∧ summarize_text_with_gemini (some gen4) bigText fillId = ⟨"A", 2⟩
    ∧ (summarize_text_with_gemini (some gen4) bigText fillId).apiCalls
        ≠ (chunk_text bigText ((MAX_TEXT_LENGTH_FOR_SINGLE_CALL : Nat) : Int)).length + 1 := by
  have hlen : MAX_TEXT_LENGTH_FOR_SINGLE_CALL < bigText.length := by
    rw [bigText_length]
    norm_num [MAX_TEXT_LENGTH_FOR_SINGLE_CALL]
  have g0 : ∀ p, gen4 0 p = .ok "A" := fun _ => rfl
  have g1 : ∀ p, gen4 1 p = .noCandidates "dbg" := fun _ => rfl
  have hloop : chunkSummLoop gen4 [bigA ++ ".", bigA ++ "."] 0 [] = .ok (["A"], 2) := by
    rw [chunkSummLoop_cons, g0]
    show chunkSummLoop gen4 [bigA ++ "."] (0 + 1) ([] ++ ["A"]) = _
    rw [chunkSummLoop_cons, g1]
    rfl
  have hb : summarize_text_with_gemini (some gen4) bigText fillId = ⟨"A", 2⟩ := by
    rw [summarize_chunked gen4 bigText fillId bigText_not_blank hlen, bigChunks, hloop]
    rfl
  refine ⟨by rw [bigChunks]; norm_num, hb, ?_⟩
  rw [hb, bigChunks]
  norm_num

/-- C4 (amended): in large-text summarization, when every chunk call
returns a text-bearing response, then: if the splitter produced more
than one chunk, the partial summaries are concatenated and a second
summarization pass produces the final result (one extra API call); if
the splitter produced exactly one chunk, that chunk's summary is
returned directly, reformatted to the fixed line width, with no second
pass. -/
theorem C4_amended_map_reduce (gen : GenApi) (ts : Nat → String) (text : String)
    (fill : String → Nat → String)
    (hnb : isBlank text = false)
    (hlen : MAX_TEXT_LENGTH_FOR_SINGLE_CALL < text.length)
    (hok : ∀ i, i < (chunk_text text ((MAX_TEXT_LENGTH_FOR_SINGLE_CALL : Nat) : Int)).length →
      gen i (chunkPrompt
        ((chunk_text text ((MAX_TEXT_LENGTH_FOR_SINGLE_CALL : Nat) : Int)).getD i ""))
        = .ok (ts i)) :
    (1 < (chunk_text text ((MAX_TEXT_LENGTH_FOR_SINGLE_CALL : Nat) : Int)).length →
      summarize_text_with_gemini (some gen) text fill
        = finalPass gen (chunk_text text ((MAX_TEXT_LENGTH_FOR_SINGLE_CALL : Nat) : Int)).length
            (pyJoin "\n\n"
              ((List.range
                (chunk_text text ((MAX_TEXT_LENGTH_FOR_SINGLE_CALL : Nat) : Int)).length).map ts))
            fill)
    ∧ ((chunk_text text ((MAX_TEXT_LENGTH_FOR_SINGLE_CALL : Nat) : Int)).length = 1 →
      summarize_text_with_gemini (some gen) text fill = ⟨fill (ts 0) 80, 1⟩) := by
  have hloop := chunkSummLoop_allOk gen ts
    (chunk_text text ((MAX_TEXT_LENGTH_FOR_SINGLE_CALL : Nat) : Int)) 0 []
    (by simpa using hok)
  simp only [Nat.zero_add, List.nil_append] at hloop
  constructor
  · intro h1
    simp only [summarize_text_with_gemini]
    rw [if_neg (by simp [hnb]), if_pos hlen]
    simp only [hloop]
    cases hc : (List.range
        (chunk_text text ((MAX_TEXT_LENGTH_FOR_SINGLE_CALL : Nat) : Int)).length).map ts with
    | nil =>
      exfalso
      have hz := congrArg List.length hc
      simp only [List.length_map, List.length_range, List.length_nil] at hz
      omega
    | cons s rest =>
      have hlen2 : (s :: rest).length
          = (chunk_text text ((MAX_TEXT_LENGTH_FOR_SINGLE_CALL : Nat) : Int)).length := by
        rw [← hc]
        simp
      simp only [hc]
      rw [if_pos (by rw [hlen2]; exact h1)]
  · intro h1
    simp only [summarize_text_with_gemini]
    rw [if_neg (by simp [hnb]), if_pos hlen]
    simp only [hloop]
    rw [h1, show (List.range 1) = [0] from rfl]
    simp

/-- C4 witness: the amended statement's multi-chunk branch evaluated on
the two-chunk `bigText` with an all-succeeding API run. -/
theorem C4_amended_map_reduce_witness :
    isBlank bigText = false
    ∧ summarize_text_with_gemini (some genOk) bigText fillId
        = finalPass genOk 2 (pyJoin "\n\n" ["A", "A"]) fillId := by
  refine ⟨bigText_not_blank, ?_⟩
  have hlen : MAX_TEXT_LENGTH_FOR_SINGLE_CALL < bigText.length := by
    rw [bigText_length]
    norm_num [MAX_TEXT_LENGTH_FOR_SINGLE_CALL]
  have hok : ∀ i,
      i < (chunk_text bigText ((MAX_TEXT_LENGTH_FOR_SINGLE_CALL : Nat) : Int)).length →
      genOk i (chunkPrompt
        ((chunk_text bigText ((MAX_TEXT_LENGTH_FOR_SINGLE_CALL : Nat) : Int)).getD i ""))
        = .ok ((fun _ => "A") i) := fun i _ => rfl
  have h := (C4_amended_map_reduce genOk (fun _ => "A") bigText fillId
    bigText_not_blank hlen hok).1 (by rw [bigChunks]; norm_num)
  rw [bigChunks] at h
  simpa using h

/-! ## `wait_for_file_download_completion` lemmas -/

theorem pdfStabilityLoop_succ (fs : FS) (path : String) (k t cnt : Nat) (last : Int) :
    pdfStabilityLoop fs path (k + 1) t cnt last
      = if 3 ≤ (if (fs.size (t + 1) path : Int) = last ∧ 0 < (fs.size (t + 1) path : Int)
                then cnt + 1 else 0)
        then ((fs.size (t + 1) path : Int), true, t + 1)
        else pdfStabilityLoop fs path k (t + 1)
          (if (fs.size (t + 1) path : Int) = last ∧ 0 < (fs.size (t + 1) path : Int)
           then cnt + 1 else 0)
          ((fs.size (t + 1) path : Int)) := rfl

/-- With a constant positive observed size, the 5-sample stability loop
declares completion at the fourth sample (baseline plus three
consecutive stable readings). -/
theorem pdfStabilityLoop_stable (fs : FS) (p : String) (n : Nat) (hn : 0 < n)
    (hsize : ∀ t, fs.size t p = n) (u : Nat) :
    pdfStabilityLoop fs p 5 u 0 (-1) = ((n : Int), true, u + 4) := by
  have hne : ¬ (((n : Nat) : Int) = -1 ∧ 0 < ((n : Nat) : Int)) := by
    rintro ⟨h1, -⟩
    omega
  have heq : ((n : Nat) : Int) = ((n : Nat) : Int) ∧ 0 < ((n : Nat) : Int) :=
    ⟨rfl, by exact_mod_cast hn⟩
  simp only [pdfStabilityLoop, hsize, if_neg hne, if_pos heq]
  norm_num [hn]

/-- With sizes that differ on every pair of consecutive ticks, the
stability counter resets at every sample after the first: starting from
a baseline equal to the previous tick's size, the loop never declares
completion. -/
theorem pdfStabilityLoop_changing (fs : FS) (p : String)
    (hchange : ∀ t, fs.size t p ≠ fs.size (t + 1) p) :
    ∀ (k u cnt : Nat),
    pdfStabilityLoop fs p k u cnt ((fs.size u p : Int))
      = ((fs.size (u + k) p : Int), false, u + k) := by
  intro k
  induction k with
  | zero =>
    intro u cnt
    simp [pdfStabilityLoop]
  | succ k ih =>
    intro u cnt
    have hne : ¬ ((fs.size (u + 1) p : Int) = (fs.size u p : Int)
        ∧ 0 < (fs.size (u + 1) p : Int)) := by
      rintro ⟨h1, -⟩
      exact hchange u (by exact_mod_cast h1.symm)
    rw [pdfStabilityLoop_succ, if_neg hne, if_neg (show ¬ (3 : Nat) ≤ 0 by norm_num),
      ih (u + 1) 0, show u + 1 + k = u + (k + 1) from by omega]

/-- As `pdfStabilityLoop_changing`, but from an arbitrary baseline: the
first sample can at most push the counter to 1, every later sample
resets it, so completion is never declared within the 5 samples. -/
theorem pdfStabilityLoop_changing_start (fs : FS) (p : String)
    (hchange : ∀ t, fs.size t p ≠ fs.size (t + 1) p) (u : Nat) (last : Int) :
    pdfStabilityLoop fs p 5 u 0 last = ((fs.size (u + 5) p : Int), false, u + 5) := by
  rw [pdfStabilityLoop_succ]
  by_cases hc : (fs.size (u + 1) p : Int) = last ∧ 0 < (fs.size (u + 1) p : Int)
  · rw [if_pos hc, if_neg (show ¬ (3 : Nat) ≤ 0 + 1 by norm_num),
      pdfStabilityLoop_changing fs p hchange 4 (u + 1) (0 + 1),
      show u + 1 + 4 = u + 5 from by omega]
  · rw [if_neg hc, if_neg (show ¬ (3 : Nat) ≤ 0 by norm_num),
      pdfStabilityLoop_changing fs p hchange 4 (u + 1) 0,
      show u + 1 + 4 = u + 5 from by omega]

/-- A sole final-extension candidate of constant positive size: the
per-iteration loop declares completion with its path at the fourth
half-second sample. -/
theorem processPotential_pdf_stable (fs : FS) (dir f : String) (n u : Nat)
    (hnc : pyEndsWith f ".crdownload" = false)
    (hnt : pyEndsWith f ".tmp" = false)
    (hpresent : fs.present u (dir ++ "/" ++ f) = true)
    (hsize : ∀ t, fs.size t (dir ++ "/" ++ f) = n) (hn : 0 < n) :
    processPotential fs dir [f] u (-1) none
      = ((n : Int), some (dir ++ "/" ++ f), true, u + 4) := by
  simp only [processPotential]
  rw [if_pos ⟨hpresent, by rw [hsize]; exact hn⟩]
  rw [if_neg (show ¬ ((pyEndsWith f ".crdownload" || pyEndsWith f ".tmp") = true) by
    rw [hnc, hnt]; simp)]
  rw [pdfStabilityLoop_stable fs _ n hn hsize u]
  simp

/-- A sole final-extension candidate whose size changes on every
consecutive pair of ticks: the per-iteration loop records the path but
does not declare completion. -/
theorem processPotential_pdf_changing (fs : FS) (dir f : String)
    (hnc : pyEndsWith f ".crdownload" = false)
    (hnt : pyEndsWith f ".tmp" = false)
    (hpresent : ∀ t, fs.present t (dir ++ "/" ++ f) = true)
    (hpos : ∀ t, 0 < fs.size t (dir ++ "/" ++ f))
    (hchange : ∀ t, fs.size t (dir ++ "/" ++ f) ≠ fs.size (t + 1) (dir ++ "/" ++ f))
    (u : Nat) (last : Int) (res : Option String) :
    processPotential fs dir [f] u last res
      = ((fs.size (u + 5) (dir ++ "/" ++ f) : Int), some (dir ++ "/" ++ f), false, u + 5) := by
  simp only [processPotential]
  rw [if_pos ⟨hpresent u, hpos u⟩]
  rw [if_neg (show ¬ ((pyEndsWith f ".crdownload" || pyEndsWith f ".tmp") = true) by
    rw [hnc, hnt]; simp)]
  rw [pdfStabilityLoop_changing_start fs _ hchange u last]
  simp [processPotential]

theorem waitLoop_pdf_never_stable (fs : FS) (dir f : String) (ticks : Nat)
    (hlist : ∀ t, fs.listdir t = [f])
    (hpdf : pyEndsWith f ".pdf" = true)
    (hnc : pyEndsWith f ".crdownload" = false)
    (hnt : pyEndsWith f ".tmp" = false)
    (hpresent : ∀ t, fs.present t (dir ++ "/" ++ f) = true)
    (hpos : ∀ t, 0 < fs.size t (dir ++ "/" ++ f))
    (hchange : ∀ t, fs.size t (dir ++ "/" ++ f) ≠ fs.size (t + 1) (dir ++ "/" ++ f)) :
    ∀ (fuel t : Nat) (last : Int),
    waitLoop fs dir [] ticks fuel t last (some (dir ++ "/" ++ f))
      = some (dir ++ "/" ++ f) := by
  intro fuel
  induction fuel with
  | zero =>
    intro t last
    simp [waitLoop]
  | succ fuel ih =>
    intro t last
    simp only [waitLoop]
    by_cases ht : t < ticks
    · rw [if_pos ht, hlist]
      rw [show (([f].filter (fun x => !(List.contains [] x))).filter (fun x =>
          pyEndsWith x ".pdf" || pyEndsWith x ".crdownload" || pyEndsWith x ".tmp")) = [f]
        from by simp [List.filter, hpdf]]
      rw [processPotential_pdf_changing fs dir f hnc hnt hpresent hpos hchange t last _]
      simpa using ih (t + 5 + 2) ((fs.size (t + 5) (dir ++ "/" ++ f) : Int))
    · rw [if_neg ht]

/-! ## Claim C9 -/

/-- C9: a final-extension candidate appears but its size keeps changing
across every consecutive pair of samples, so the stability check never
passes before the timeout; `wait_for_file_download_completion` still
returns that file's path rather than `none`. -/
theorem C9_unstable_pdf_still_returns_path (fs : FS) (dir f : String)
    (file_download_timeout : Nat)
    (hlist : ∀ t, fs.listdir t = [f])
    (hpdf : pyEndsWith f ".pdf" = true)
    (hnc : pyEndsWith f ".crdownload" = false)
    (hnt : pyEndsWith f ".tmp" = false)
    (hpresent : ∀ t, fs.present t (dir ++ "/" ++ f) = true)
    (hpos : ∀ t, 0 < fs.size t (dir ++ "/" ++ f))
    (hchange : ∀ t, fs.size t (dir ++ "/" ++ f) ≠ fs.size (t + 1) (dir ++ "/" ++ f))
    (htimeout : 1 ≤ file_download_timeout) :
    wait_for_file_download_completion fs dir [] file_download_timeout
      = some (dir ++ "/" ++ f) := by
  rw [wait_for_file_download_completion]
  obtain ⟨k, hk⟩ : ∃ k, 2 * file_download_timeout = k + 1 :=
    ⟨2 * file_download_timeout - 1, by omega⟩
  rw [hk]
  simp only [waitLoop]
  rw [if_pos (by omega : 0 < k + 1), hlist]
  rw [show (([f].filter (fun x => !(List.contains [] x))).filter (fun x =>
      pyEndsWith x ".pdf" || pyEndsWith x ".crdownload" || pyEndsWith x ".tmp")) = [f]
    from by simp [List.filter, hpdf]]
  rw [processPotential_pdf_changing fs dir f hnc hnt hpresent hpos hchange 0 (-1) none]
  simpa using waitLoop_pdf_never_stable fs dir f (k + 1) hlist hpdf hnc hnt hpresent hpos
    hchange k (0 + 5 + 2) ((fs.size (0 + 5) (dir ++ "/" ++ f) : Int))

/-- C9 witness: the growing-size scenario `fsGrow` with a one-second
timeout. -/
theorem C9_unstable_pdf_still_returns_path_witness :
    (∀ t, fsGrow.size t ("downloads" ++ "/" ++ "report.pdf")
        ≠ fsGrow.size (t + 1) ("downloads" ++ "/" ++ "report.pdf"))
    ∧ wait_for_file_download_completion fsGrow "downloads" [] 1
        = some ("downloads" ++ "/" ++ "report.pdf") := by
  refine ⟨fun t => by simp [fsGrow], ?_⟩
  exact C9_unstable_pdf_still_returns_path fsGrow "downloads" "report.pdf" 1
    (fun t => rfl) rfl rfl rfl (fun t => rfl) (fun t => by simp [fsGrow])
    (fun t => by simp [fsGrow]) (by norm_num)

/-! ## Claim C3 -/

/-- C3: temp-extension completion detection.  With
`report.pdf.crdownload` as the only new entry: observed sizes
`100, 100` over consecutive one-second polls declare completion at the
second poll with that file's path (a 2-second timeout suffices);
observed sizes `100, 150, 150` declare completion only at the third
poll — a 2-second timeout (two polls) yields `none`, a 3-second timeout
(three polls) yields the path. -/
theorem C3_crdownload_size_stabilization :
    wait_for_file_download_completion fs3a "downloads" [] 2
      = some "downloads/report.pdf.crdownload"
    ∧ wait_for_file_download_completion fs3b "downloads" [] 2 = none
    ∧ wait_for_file_download_completion fs3b "downloads" [] 3
      = some "downloads/report.pdf.crdownload" := by
  refine ⟨?_, ?_, ?_⟩ <;> decide

/-! ## Claim C7 -/

/-- C7: for a newly appeared candidate already bearing the final `.pdf`
extension, completion is declared only after the size is observed
unchanged and non-zero on three consecutive half-second samples
(completion flag `true` at tick `u + 4`: baseline sample plus three
stable ones); a candidate whose size differs on every consecutive pair
of samples is not declared complete in that iteration (flag `false`
after all five samples). -/
theorem C7_pdf_three_stable_samples (fs : FS) (dir f : String) (n u : Nat)
    (hnc : pyEndsWith f ".crdownload" = false)
    (hnt : pyEndsWith f ".tmp" = false)
    (hpresent : fs.present u (dir ++ "/" ++ f) = true)
    (hsize : ∀ t, fs.size t (dir ++ "/" ++ f) = n) (hn : 0 < n)
    (fs' : FS) (dir' f' : String) (u' : Nat)
    (hnc' : pyEndsWith f' ".crdownload" = false)
    (hnt' : pyEndsWith f' ".tmp" = false)
    (hpresent' : ∀ t, fs'.present t (dir' ++ "/" ++ f') = true)
    (hpos' : ∀ t, 0 < fs'.size t (dir' ++ "/" ++ f'))
    (hchange' : ∀ t, fs'.size t (dir' ++ "/" ++ f') ≠ fs'.size (t + 1) (dir' ++ "/" ++ f')) :
    processPotential fs dir [f] u (-1) none
      = ((n : Int), some (dir ++ "/" ++ f), true, u + 4)
    ∧ processPotential fs' dir' [f'] u' (-1) none
      = ((fs'.size (u' + 5) (dir' ++ "/" ++ f') : Int), some (dir' ++ "/" ++ f'), false,
         u' + 5) :=
  ⟨processPotential_pdf_stable fs dir f n u hnc hnt hpresent hsize hn,
   processPotential_pdf_changing fs' dir' f' hnc' hnt' hpresent' hpos' hchange' u' (-1) none⟩

/-- C7 witness: the constant-size scenario `fsStable` and the
growing-size scenario `fsGrow`, both at tick 0. -/
theorem C7_pdf_three_stable_samples_witness :
    (∀ t, fsStable.size t ("downloads" ++ "/" ++ "report.pdf") = 100)
    ∧ (processPotential fsStable "downloads" ["report.pdf"] 0 (-1) none
        = ((100 : Int), some ("downloads" ++ "/" ++ "report.pdf"), true, 0 + 4)
      ∧ processPotential fsGrow "downloads" ["report.pdf"] 0 (-1) none
        = ((fsGrow.size (0 + 5) ("downloads" ++ "/" ++ "report.pdf") : Int),
           some ("downloads" ++ "/" ++ "report.pdf"), false, 0 + 5)) := by
  refine ⟨fun t => rfl, ?_⟩
  exact C7_pdf_three_stable_samples fsStable "downloads" "report.pdf" 100 0
    rfl rfl rfl (fun t => rfl) (by norm_num)
    fsGrow "downloads" "report.pdf" 0 rfl rfl (fun t => rfl)
    (fun t => by simp [fsGrow]) (fun t => by simp [fsGrow])

/-! ## `extract_ids_from_meeting_minutes` lemmas -/

theorem pyDictInsert_keys_mem (d : List (String × List String)) (k : String)
    (v : List String) (a : String) :
    a ∈ dictKeys (pyDictInsert d k v) ↔ a ∈ dictKeys d ∨ a = k := by
  rw [pyDictInsert]
  by_cases h : d.any (fun p => p.1 == k)
  · rw [if_pos h]
    have hk : k ∈ dictKeys d := by
      rcases List.any_eq_true.mp h with ⟨p, hp, hbeq⟩
      have : p.1 = k := by simpa using hbeq
      exact this ▸ List.mem_map.mpr ⟨p, hp, rfl⟩
    have hkeys : dictKeys (d.map (fun p => if p.1 == k then (p.1, v) else p)) = dictKeys d := by
      rw [dictKeys, List.map_map, dictKeys]
      apply List.map_congr_left
      intro p _
      show (if p.1 == k then (p.1, v) else p).1 = p.1
      split <;> rfl
    rw [hkeys]
    constructor
    · exact Or.inl
    · rintro (h1 | rfl)
      · exact h1
      · exact hk
  · rw [if_neg h]
    rw [dictKeys, List.map_append]
    simp [dictKeys]

theorem pyDictInsert_mem (d : List (String × List String)) (k : String)
    (v : List String) (p : String × List String)
    (hp : p ∈ pyDictInsert d k v) : p ∈ d ∨ p.2 = v := by
  rw [pyDictInsert] at hp
  split at hp
  · rcases List.mem_map.mp hp with ⟨q, hq, he⟩
    by_cases hb : q.1 == k
    · rw [if_pos hb] at he
      right
      rw [← he]
    · rw [if_neg hb] at he
      left
      rw [← he]
      exact hq
  · rcases List.mem_append.mp hp with h1 | h1
    · exact Or.inl h1
    · right
      have : p = (k, v) := by simpa using h1
      rw [this]

theorem extractLoop_keys (env : Nat → CategoryOutcome) :
    ∀ (cats : List String) (i : Nat) (acc : List (String × List String)) (a : String),
    a ∈ dictKeys (extractLoop env cats i acc)
      ↔ a ∈ dictKeys acc
        ∨ ∃ j, j < cats.length ∧ cats.getD j "" = a ∧ env (i + j) ≠ .failure := by
  intro cats
  induction cats with
  | nil =>
    intro i acc a
    simp [extractLoop]
  | cons c rest ih =>
    intro i acc a
    have hcase : env i ≠ .failure → ∀ v : List String,
        (a ∈ dictKeys (extractLoop env rest (i + 1) (pyDictInsert acc c v))
          ↔ a ∈ dictKeys acc
            ∨ ∃ j, j < (c :: rest).length
                ∧ (c :: rest).getD j "" = a ∧ env (i + j) ≠ .failure) := by
      intro henv v
      rw [ih (i + 1) (pyDictInsert acc c v) a, pyDictInsert_keys_mem]
      constructor
      · rintro ((h | rfl) | ⟨j, hj, hg, hf⟩)
        · exact Or.inl h
        · exact Or.inr ⟨0, by simp, by simp, by simpa using henv⟩
        · exact Or.inr ⟨j + 1, by simpa using hj, by simpa using hg,
            by rw [show i + (j + 1) = i + 1 + j from by omega]; exact hf⟩
      · rintro (h | ⟨j, hj, hg, hf⟩)
        · exact Or.inl (Or.inl h)
        · cases j with
          | zero =>
            refine Or.inl (Or.inr ?_)
            simpa using hg.symm
          | succ j' =>
            refine Or.inr ⟨j', by simpa using hj, by simpa using hg, ?_⟩
            rw [show i + 1 + j' = i + (j' + 1) from by omega]
            exact hf
    cases he : env i with
    | failure =>
      rw [show extractLoop env (c :: rest) i acc = extractLoop env rest (i + 1) acc from by
        simp only [extractLoop, he]]
      rw [ih (i + 1) acc a]
      constructor
      · rintro (h | ⟨j, hj, hg, hf⟩)
        · exact Or.inl h
        · exact Or.inr ⟨j + 1, by simpa using hj, by simpa using hg,
            by rw [show i + (j + 1) = i + 1 + j from by omega]; exact hf⟩
      · rintro (h | ⟨j, hj, hg, hf⟩)
        · exact Or.inl h
        · cases j with
          | zero =>
            rw [Nat.add_zero] at hf
            exact absurd he hf
          | succ j' =>
            refine Or.inr ⟨j', by simpa using hj, by simpa using hg, ?_⟩
            rw [show i + 1 + j' = i + (j' + 1) from by omega]
            exact hf
    | noResults =>
      rw [show extractLoop env (c :: rest) i acc
          = extractLoop env rest (i + 1) (pyDictInsert acc c []) from by
        simp only [extractLoop, he]]
      exact hcase (by rw [he]; simp) []
    | page ids =>
      rw [show extractLoop env (c :: rest) i acc
          = extractLoop env rest (i + 1) (pyDictInsert acc c ids.dedup) from by
        simp only [extractLoop, he]]
      exact hcase (by rw [he]; simp) ids.dedup

theorem extractLoop_vals (env : Nat → CategoryOutcome) :
    ∀ (cats : List String) (i : Nat) (acc : List (String × List String)),
    (∀ p : String × List String, p ∈ acc → p.2.Nodup) →
    ∀ p ∈ extractLoop env cats i acc, p.2.Nodup := by
  intro cats
  induction cats with
  | nil =>
    intro i acc hacc p hp
    simp only [extractLoop] at hp
    exact hacc p hp
  | cons c rest ih =>
    intro i acc hacc p hp
    cases he : env i with
    | failure =>
      simp only [extractLoop, he] at hp
      exact ih (i + 1) acc hacc p hp
    | noResults =>
      simp only [extractLoop, he] at hp
      refine ih (i + 1) _ ?_ p hp
      intro q hq
      rcases pyDictInsert_mem acc c [] q hq with h1 | h1
      · exact hacc q h1
      · rw [h1]
        exact List.nodup_nil
    | page ids =>
      simp only [extractLoop, he] at hp
      refine ih (i + 1) _ ?_ p hp
      intro q hq
      rcases pyDictInsert_mem acc c ids.dedup q hq with h1 | h1
      · exact hacc q h1
      · rw [h1]
        exact List.nodup_dedup ids

/-! ## Claim C2 -/

/-- C2, counterexample: with the category list `["A", "B"]` and a run in
which category `"A"` fails (dropdown/submit/results failure paths all
`continue` without writing an entry), the returned mapping's keys are
`["B"]`, not the full category list: `"A"` is absent. -/
theorem C2_counterexample :
    extract_ids_from_meeting_minutes (some ["A", "B"]) [] envC2 = [("B", ["1"])]
    ∧ ¬ "A" ∈ dictKeys (extract_ids_from_meeting_minutes (some ["A", "B"]) [] envC2) := by
  decide

/-- C2 (amended): for every run with a given category list (or the
discovered list when none is given), the returned mapping's keys are
exactly those categories whose per-category processing did not fail
(failed categories are skipped without an entry), and every category's
value is a list with no duplicate identifier values. -/
theorem C2_amended_keys_and_nodup (categories : Option (List String))
    (discovered : List String) (env : Nat → CategoryOutcome) :
    (∀ a, a ∈ dictKeys (extract_ids_from_meeting_minutes categories discovered env)
      ↔ ∃ j, j < (categories.getD discovered).length
          ∧ (categories.getD discovered).getD j "" = a ∧ env j ≠ .failure)
    ∧ ∀ p : String × List String,
        p ∈ extract_ids_from_meeting_minutes categories discovered env → p.2.Nodup := by
  constructor
  · intro a
    rw [extract_ids_from_meeting_minutes, extractLoop_keys]
    simp [dictKeys]
  · intro p hp
    exact extractLoop_vals env _ 0 [] (by simp) p hp

/-- C2 witness: the amended statement at the category list `["A"]` with
a results page containing the duplicated id `"7"`. -/
theorem C2_amended_keys_and_nodup_witness :
    (∀ a, a ∈ dictKeys (extract_ids_from_meeting_minutes (some ["A"]) [] envW2)
      ↔ ∃ j, j < ((some ["A"] : Option (List String)).getD []).length
          ∧ ((some ["A"] : Option (List String)).getD []).getD j "" = a
          ∧ envW2 j ≠ .failure)
    ∧ ∀ p : String × List String,
        p ∈ extract_ids_from_meeting_minutes (some ["A"]) [] envW2 → p.2.Nodup :=
  C2_amended_keys_and_nodup (some ["A"]) [] envW2

/-! ## Claim C8 -/

/-- C8: link generation is a pure function of the mapping: for
`{"A": ["1","2"], "B": []}` the output is exactly the two links obtained
by substituting each id into the fixed URL template, in
category-then-id order, with the empty category contributing nothing. -/
theorem C8_link_generation :
    process_and_generate_links [("A", ["1", "2"]), ("B", [])]
      = ["https://portal.laserfiche.com/Portal/DocView.aspx?id=1&repo=r-5c10bb82",
         "https://portal.laserfiche.com/Portal/DocView.aspx?id=2&repo=r-5c10bb82"] := by
  decide

end MinutesPipeline
